import Mathlib

/-!
Verification of the `beer` Bayesian-inference library (exponential-family
densities, Bregman/KL divergence, Bayesian mixture models) against its
natural-language specification.

The Python source (`beer/expfamily.py`, `beer/models/mixture.py`) is shallowly
embedded: tensors become lists of reals (matrices become lists of rows), the
torch autograd gradient oracle becomes an explicit function parameter
`oracle : (List ℝ → ℝ) → List ℝ → List ℝ` (the spec treats automatic
differentiation as an external "Gradient Oracle" service), and fallible
construction returns `Except`.
-/

namespace Beer

/-! ### Basic list linear algebra (torch tensor operations) -/

/-- Elementwise sum of two vectors (`torch` broadcast-free `+`). -/
def vecAdd (u v : List ℝ) : List ℝ := List.zipWith (· + ·) u v

/-- Elementwise difference of two vectors. -/
def vecSub (u v : List ℝ) : List ℝ := List.zipWith (· - ·) u v

/-- Scalar multiplication of a vector. -/
def smulList (c : ℝ) (v : List ℝ) : List ℝ := v.map (fun x => c * x)

/-- Dot product (`@` between two vectors). -/
def dot (u v : List ℝ) : ℝ := (List.zipWith (· * ·) u v).sum

/-- Outer product `torch.ger u v`, as a list of rows. -/
def ger (u v : List ℝ) : List (List ℝ) := u.map (fun x => v.map (fun y => x * y))

/-- `A @ Bᵗ`: row i of the result is the vector of dot products of row i of
`A` with each row of `B`. -/
def matMulT (A B : List (List ℝ)) : List (List ℝ) :=
  A.map (fun r => B.map (fun s => dot r s))

/-- Transpose of a rectangular matrix given as a list of rows (`tensor.t()`):
column j of the input, read with the column count of the first row, becomes
row j of the output. -/
def transposeM (M : List (List ℝ)) : List (List ℝ) :=
  (List.range (M.headD []).length).map (fun j => M.map (fun r => r.getD j 0))

/-- Column sums of a matrix (`tensor.sum(dim=0)`), given as a list of rows. -/
def colSum : List (List ℝ) → List ℝ
  | [] => []
  | [r] => r
  | r :: rs => List.zipWith (· + ·) r (colSum rs)

/-- `log Γ`, the log-gamma function (`torch.lgamma` / `scipy.special.gammaln`). -/
noncomputable def lgamma (x : ℝ) : ℝ := Real.log (Real.Gamma x)

/-- Determinant of the `D × D` matrix whose `(i, j)` entry is `f i j`
(`torch.det`). -/
noncomputable def detN (D : ℕ) (f : ℕ → ℕ → ℝ) : ℝ :=
  Matrix.det (Matrix.of fun i j : Fin D => f i.1 j.1)

/-! ### `beer/expfamily.py` -/

/-- `_bregman_divergence(F_p, F_q, grad_F_q, p, q)` from `expfamily.py`:
`F_p - F_q - grad_F_q @ (p - q)`. -/
def bregman_divergence (F_p F_q : ℝ) (grad_F_q p q : List ℝ) : ℝ :=
  F_p - F_q - dot grad_F_q (vecSub p q)

/-- `_exp_stats_and_log_norm(natural_params, log_norm_fn)`: evaluates the
log-normalizer at the parameter vector and obtains its gradient from the
gradient oracle (`torch.autograd.backward`); returns
`(natural_params.grad, log_norm)`. -/
def exp_stats_and_log_norm (oracle : (List ℝ → ℝ) → List ℝ → List ℝ)
    (natural_params : List ℝ) (log_norm_fn : List ℝ → ℝ) : List ℝ × ℝ :=
  (oracle log_norm_fn natural_params, log_norm_fn natural_params)

/-- `ExpFamilyDensity`: a natural-parameter vector, the bound log-normalizer
function, and the two cached quantities (`_log_norm`,
`_expected_sufficient_statistics`) recomputed on every parameter write. -/
structure ExpFamilyDensity where
  log_norm_fn : List ℝ → ℝ
  natural_params : List ℝ
  log_norm : ℝ
  expected_sufficient_statistics : List ℝ

/-- The `natural_params` property setter: replaces the vector and recomputes
both cached quantities from it via `_exp_stats_and_log_norm`. -/
def ExpFamilyDensity.set_natural_params (d : ExpFamilyDensity)
    (oracle : (List ℝ → ℝ) → List ℝ → List ℝ) (value : List ℝ) :
    ExpFamilyDensity :=
  { d with
    natural_params := value
    expected_sufficient_statistics := (exp_stats_and_log_norm oracle value d.log_norm_fn).1
    log_norm := (exp_stats_and_log_norm oracle value d.log_norm_fn).2 }

/-- `ExpFamilyDensity.__init__`: binds the log-normalizer function and then
assigns `natural_params`, which triggers the setter. -/
def ExpFamilyDensity.create (oracle : (List ℝ → ℝ) → List ℝ → List ℝ)
    (log_norm_fn : List ℝ → ℝ) (natural_params : List ℝ) : ExpFamilyDensity :=
  ExpFamilyDensity.set_natural_params
    { log_norm_fn := log_norm_fn, natural_params := [], log_norm := 0,
      expected_sufficient_statistics := [] } oracle natural_params

/-- `kl_divergence(model1, model2)` from `expfamily.py`. -/
def kl_divergence (model1 model2 : ExpFamilyDensity) : ℝ :=
  bregman_divergence model2.log_norm model1.log_norm
    model1.expected_sufficient_statistics
    model2.natural_params model1.natural_params

/-- `_dirichlet_log_norm(natural_params)`:
`-lgamma((np + 1).sum()) + lgamma(np + 1).sum()`. -/
noncomputable def dirichlet_log_norm (natural_params : List ℝ) : ℝ :=
  - lgamma ((natural_params.map (fun x => x + 1)).sum)
    + (natural_params.map (fun x => lgamma (x + 1))).sum

/-- `dirichlet(prior_counts)`: natural parameters are `prior_counts - 1`. -/
noncomputable def dirichlet (oracle : (List ℝ → ℝ) → List ℝ → List ℝ)
    (prior_counts : List ℝ) : ExpFamilyDensity :=
  ExpFamilyDensity.create oracle dirichlet_log_norm
    (prior_counts.map (fun x => x - 1))

/-- `_normalgamma_log_norm(natural_params)`: the vector is viewed as 4 blocks
`np1, np2, np3, np4` of equal length `d` and the summand
`lgamma(.5(np4+1)) - .5 log np3 - .5 (np4+1) log(.5 (np1 - np2²/np3))`
is summed over the `d` positions. -/
noncomputable def normalgamma_log_norm (v : List ℝ) : ℝ :=
  ∑ i in Finset.range (v.length / 4),
    (lgamma (0.5 * (v.getD (3 * (v.length / 4) + i) 0 + 1))
      - 0.5 * Real.log (v.getD (2 * (v.length / 4) + i) 0)
      - 0.5 * (v.getD (3 * (v.length / 4) + i) 0 + 1)
        * Real.log (0.5 * (v.getD i 0
            - v.getD ((v.length / 4) + i) 0 ^ 2 / v.getD (2 * (v.length / 4) + i) 0)))

/-- `normalgamma(mean, precision, prior_counts)`: concatenates
`[n_prec * mean² + 2 * g_rates, n_prec * mean, n_prec, 2 * g_shapes - 1]`
where `n_prec = prior_counts * ones_like(mean)`, `g_shapes =
precision * prior_counts` and `g_rates = prior_counts`. -/
noncomputable def normalgamma (oracle : (List ℝ → ℝ) → List ℝ → List ℝ)
    (mean precision : List ℝ) (prior_counts : ℝ) : ExpFamilyDensity :=
  ExpFamilyDensity.create oracle normalgamma_log_norm
    ((mean.map (fun m => prior_counts * m ^ 2 + 2 * prior_counts))
      ++ (mean.map (fun m => prior_counts * m))
      ++ (mean.map (fun _ => prior_counts))
      ++ (precision.map (fun p => 2 * (p * prior_counts) - 1)))

/-- The dimension recovered by `_normalwishart_split_nparams`: the integer
solution of `D² + D - len(natural_params[:-2]) = 0`, computed as
`int(.5 * (-1 + sqrt(1 + 4 * len(natural_params[:-2]))))`. -/
def nwD (v : List ℝ) : ℕ := (Nat.sqrt (1 + 4 * (v.length - 2)) - 1) / 2

/-- The `np2` block of `_normalwishart_split_nparams`:
`natural_params[D**2:-2]`. -/
def nwNp2 (v : List ℝ) : List ℝ := (v.take (v.length - 2)).drop (nwD v * nwD v)

/-- `_normalwishart_log_norm(natural_params)`, with
`np1[i][j] = natural_params[i*D+j]` (the `view(D, D)` of the first `D²`
entries), `np2 = natural_params[D**2:-2]`, `np3, np4 = natural_params[-2:]`,
`logdet = log det(np1 - ger(np2, np2) / np3)` and the `torch.arange(1, D+1)`
log-gamma sum. -/
noncomputable def normalwishart_log_norm (v : List ℝ) : ℝ :=
  0.5 * ((v.getD (v.length - 1) 0 + (nwD v : ℝ)) * (nwD v : ℝ) * Real.log 2
      - (nwD v : ℝ) * Real.log (v.getD (v.length - 2) 0))
  - 0.5 * (v.getD (v.length - 1) 0 + (nwD v : ℝ))
      * Real.log (detN (nwD v) (fun i j =>
          v.getD (i * nwD v + j) 0
            - (nwNp2 v).getD i 0 * (nwNp2 v).getD j 0 / v.getD (v.length - 2) 0))
  + ∑ i in Finset.range (nwD v),
      lgamma (0.5 * (v.getD (v.length - 1) 0 + (nwD v : ℝ) + 1 - ((i : ℝ) + 1)))

/-- A torch tensor argument whose number of dimensions matters: either a
1-D tensor (vector) or a 2-D tensor (list of rows). -/
inductive Tensor where
  | t1 : List ℝ → Tensor
  | t2 : List (List ℝ) → Tensor

/-- Elementwise addition of two 2-D tensors under torch broadcasting: each
dimension must match or be 1, otherwise a runtime shape error is raised. -/
def broadcastAdd (A B : List (List ℝ)) : Except String (List (List ℝ)) :=
  if (A.length == B.length || A.length == 1 || B.length == 1)
      && ((A.headD []).length == (B.headD []).length
          || (A.headD []).length == 1 || (B.headD []).length == 1) then
    Except.ok ((List.range (max A.length B.length)).map (fun i =>
      (List.range (max (A.headD []).length (B.headD []).length)).map (fun j =>
        (A.getD (if A.length == 1 then 0 else i) []).getD
            (if (A.headD []).length == 1 then 0 else j) 0
          + (B.getD (if B.length == 1 then 0 else i) []).getD
            (if (B.headD []).length == 1 then 0 else j) 0)))
  else Except.error "The size of tensor a must match the size of tensor b"

/-- `normalwishart(mean, precision, prior_counts)`: raises
`ValueError('Expect a (D x D).')` when the precision argument is not a 2-D
tensor, then builds the flattened natural-parameter vector
`[(prior_counts * ger(mean, mean) + precision).view(-1),
prior_counts * mean, prior_counts, prior_counts - 1]`; the elementwise
addition raises a torch shape error when the shapes do not broadcast. -/
noncomputable def normalwishart (oracle : (List ℝ → ℝ) → List ℝ → List ℝ)
    (mean : List ℝ) (precision : Tensor) (prior_counts : ℝ) :
    Except String ExpFamilyDensity :=
  match precision with
  | Tensor.t1 _ => Except.error "Expect a (D x D)."
  | Tensor.t2 p =>
    match broadcastAdd ((ger mean mean).map (smulList prior_counts)) p with
    | Except.error e => Except.error e
    | Except.ok m =>
      Except.ok (ExpFamilyDensity.create oracle normalwishart_log_norm
        (m.flatten ++ mean.map (fun x => prior_counts * x)
          ++ [prior_counts, prior_counts - 1]))

/-- The invariant tying an `ExpFamilyDensity`'s two caches to its current
natural-parameter vector: the cached log-normalizer value is
`log_norm_fn` at the vector and the cached expected sufficient statistics
are the gradient oracle's output (the gradient of `log_norm_fn`) there. -/
def consistentWith (oracle : (List ℝ → ℝ) → List ℝ → List ℝ)
    (d : ExpFamilyDensity) : Prop :=
  d.log_norm = d.log_norm_fn d.natural_params
    ∧ d.expected_sufficient_statistics = oracle d.log_norm_fn d.natural_params

/-! ### First theorems: C1 (KL divergence) and C8 (Dirichlet round-trip) -/

/-- Auxiliary: the dot product of any vector with `v - v` vanishes. -/
theorem dot_vecSub_self (e v : List ℝ) : dot e (vecSub v v) = 0 := by
  induction v generalizing e with
  | nil => cases e <;> simp [dot, vecSub]
  | cons x t ih =>
    cases e with
    | nil => simp [dot, vecSub]
    | cons a e' =>
      simp only [vecSub, List.zipWith_cons_cons, dot, List.sum_cons] at *
      rw [show x - x = 0 by ring]
      simpa [dot, vecSub] using ih e'

/-- C1: `kl_divergence(posterior, prior)` returns exactly
`log_norm(prior) - log_norm(posterior) -
expected_sufficient_statistics(posterior) ⬝ (natural_params(prior) -
natural_params(posterior))`, and `kl_divergence(p, p) = 0` for every
density `p`. -/
theorem kl_divergence_formula_and_self :
    (∀ posterior prior : ExpFamilyDensity,
      kl_divergence posterior prior =
        prior.log_norm - posterior.log_norm
          - dot posterior.expected_sufficient_statistics
              (vecSub prior.natural_params posterior.natural_params))
    ∧ ∀ p : ExpFamilyDensity, kl_divergence p p = 0 := by
  constructor
  · intro posterior prior
    rfl
  · intro p
    show p.log_norm - p.log_norm
        - dot p.expected_sufficient_statistics
            (vecSub p.natural_params p.natural_params) = 0
    rw [dot_vecSub_self]
    ring

/-- C8: constructing a Dirichlet density from `prior_counts` and reading back
`natural_params` yields exactly `prior_counts - 1` componentwise. -/
theorem dirichlet_natural_params_roundtrip :
    ∀ (oracle : (List ℝ → ℝ) → List ℝ → List ℝ) (prior_counts : List ℝ),
      (dirichlet oracle prior_counts).natural_params =
        prior_counts.map (fun x => x - 1) := by
  intro oracle prior_counts
  rfl

/-- C2: after every assignment to `natural_params` — including the one
performed at construction by the Dirichlet, Normal-Gamma and Normal-Wishart
constructors — the cached `log_norm` equals `log_norm_fn` evaluated at the
current natural-parameter vector and the cached
`expected_sufficient_statistics` equals the gradient oracle's gradient of
`log_norm_fn` there; both caches live in the single state produced by the
assignment, so a reader of the two properties always observes them matching
the same vector. -/
theorem caches_consistent_after_every_assignment :
    ∀ oracle : (List ℝ → ℝ) → List ℝ → List ℝ,
      (∀ (d : ExpFamilyDensity) (v : List ℝ),
          consistentWith oracle (d.set_natural_params oracle v)
            ∧ (d.set_natural_params oracle v).natural_params = v
            ∧ (d.set_natural_params oracle v).log_norm_fn = d.log_norm_fn)
      ∧ (∀ prior_counts, consistentWith oracle (dirichlet oracle prior_counts))
      ∧ (∀ mean precision prior_counts,
          consistentWith oracle (normalgamma oracle mean precision prior_counts))
      ∧ (∀ mean precision prior_counts,
          match normalwishart oracle mean precision prior_counts with
          | Except.ok d => consistentWith oracle d
          | Except.error _ => True) := by
  intro oracle
  refine ⟨fun d v => ⟨⟨rfl, rfl⟩, rfl, rfl⟩, fun pc => ⟨rfl, rfl⟩,
    fun m p c => ⟨rfl, rfl⟩, fun mean precision prior_counts => ?_⟩
  cases precision with
  | t1 _ => simp [normalwishart]
  | t2 p =>
    simp only [normalwishart]
    cases broadcastAdd ((ger mean mean).map (smulList prior_counts)) p with
    | error e => simp
    | ok m => exact ⟨rfl, rfl⟩

/-! ### `beer/models/mixture.py` -/

/-- Maximum entry of a (nonempty) vector, `torch.max(tensor, dim=1)` applied
to one row. The empty case never arises in the source (torch raises). -/
def listMax : List ℝ → ℝ
  | [] => 0
  | x :: xs => xs.foldl max x

/-- `_logsumexp(tensor)` applied to one row: `s = max(row)`;
`s + log(sum(exp(row - s)))` — the numerically stable log-sum-exp. -/
noncomputable def logsumexp_row (xs : List ℝ) : ℝ :=
  listMax xs + Real.log ((xs.map (fun x => Real.exp (x - listMax xs))).sum)

/-- `DirichletPrior(prior_counts)`.
Modelled from the spec: `models/mixture.py` imports `DirichletPrior` from
`beer.expfamily`, whose version in `src/` only provides the equivalent
factory `dirichlet`; per the spec round-trip rule ("natural params are
`prior_counts − 1`") and the src tests (`test_create` asserts
`DirichletPrior(prior_counts).natural_params == prior_counts - 1` with the
Dirichlet log-normalizer), it is the `dirichlet` constructor. -/
noncomputable def DirichletPrior (oracle : (List ℝ → ℝ) → List ℝ → List ℝ)
    (prior_counts : List ℝ) : ExpFamilyDensity :=
  dirichlet oracle prior_counts

/-- A mixture component: a prior and posterior exponential-family density
plus the family's per-batch sufficient-statistics function (the component
classes themselves, e.g. `models/normal.py`, are collaborators of
`mixture.py`). -/
structure Component where
  prior : ExpFamilyDensity
  posterior : ExpFamilyDensity
  sufficient_statistics : List (List ℝ) → List (List ℝ)

/-- Modelled from the spec: the per-component natural-gradient update rule
(the component classes are absent from `src/`); per the spec, "each
component applies the analogous rule with its own accumulated
sufficient-statistics sum":
`new_np = posterior_np + lrate * (prior_np + scale * stats - posterior_np)`,
assigned through the `natural_params` setter. -/
def Component.natural_grad_update (oracle : (List ℝ → ℝ) → List ℝ → List ℝ)
    (c : Component) (stats : List ℝ) (scale lrate : ℝ) : Component :=
  let natural_grad :=
    vecSub (vecAdd c.prior.natural_params (smulList scale stats))
      c.posterior.natural_params
  let new_np := vecAdd c.posterior.natural_params (smulList lrate natural_grad)
  { c with posterior := c.posterior.set_natural_params oracle new_np }

/-- The `Mixture` model: prior and posterior Dirichlet densities over the
weights, the component list, and the cached natural-parameter matrix
`_np_params_matrix`. -/
structure Mixture where
  prior_weights : ExpFamilyDensity
  posterior_weights : ExpFamilyDensity
  components : List Component
  np_params_matrix : List (List ℝ)

/-- `Mixture._prepare()`: recomputes the cached matrix; row i is component
i's posterior expected sufficient statistics with the posterior weights'
expected sufficient statistic i appended (`torch.cat(..., dim=1)`). -/
def Mixture.prepare (m : Mixture) : Mixture :=
  let matrix :=
    List.zipWith (fun c w => c.posterior.expected_sufficient_statistics ++ [w])
      m.components m.posterior_weights.expected_sufficient_statistics
  { m with np_params_matrix := matrix }

/-- `Mixture.__init__`: stores the fields then calls `_prepare()`. -/
def Mixture.init (prior_weights : ExpFamilyDensity) (components : List Component)
    (posterior_weights : ExpFamilyDensity) : Mixture :=
  Mixture.prepare
    { prior_weights := prior_weights, posterior_weights := posterior_weights,
      components := components, np_params_matrix := [] }

/-- The `Mixture.weights`-style expected weights of a Dirichlet density:
`w = exp(expected_sufficient_statistics); w / w.sum()`. -/
noncomputable def expWeights (d : ExpFamilyDensity) : List ℝ :=
  (d.expected_sufficient_statistics.map Real.exp).map
    (fun x => x / (d.expected_sufficient_statistics.map Real.exp).sum)

/-- `Mixture.sufficient_statistics(X)`: the first component's sufficient
statistics of the batch with a column of ones appended
(`torch.cat([stats, ones[:, None]], dim=-1)`). -/
def Mixture.sufficient_statistics (m : Mixture) (X : List (List ℝ)) :
    List (List ℝ) :=
  match m.components with
  | [] => []
  | c :: _ => (c.sufficient_statistics X).map (fun r => r ++ [1])

/-- The per-component expected log-likelihood matrix of `Mixture.exp_llh`:
`T @ self._np_params_matrix.t()`. -/
def Mixture.perCompExpLlh (m : Mixture) (X : List (List ℝ)) : List (List ℝ) :=
  (m.sufficient_statistics X).map (fun t => m.np_params_matrix.map (fun row => dot t row))

/-- The responsibility matrix of `Mixture.exp_llh`:
`torch.exp(per_component_exp_llh - logsumexp_rows)` (the row-wise
log-sum-exp is broadcast over the components). -/
noncomputable def Mixture.resps (m : Mixture) (X : List (List ℝ)) :
    List (List ℝ) :=
  (m.perCompExpLlh X).map
    (fun row => row.map (fun a => Real.exp (a - logsumexp_row row)))

/-- `Mixture.exp_llh(X, accumulate=True)`: returns the per-observation
expected log-likelihood (the row-wise log-sum-exp minus the log base
measure `.5 * X.size(1) * log(2π)`) together with the accumulated
statistics `(resps.t() @ T[:, :-1], resps.sum(dim=0))`. -/
noncomputable def Mixture.exp_llh (m : Mixture) (X : List (List ℝ)) :
    List ℝ × (List (List ℝ) × List ℝ) :=
  (((m.perCompExpLlh X).map logsumexp_row).map
      (fun l => l - 0.5 * ((X.headD []).length : ℝ) * Real.log (2 * Real.pi)),
    (matMulT (transposeM (m.resps X))
        (transposeM ((m.sufficient_statistics X).map List.dropLast)),
      colSum (m.resps X)))

/-- `Mixture.natural_grad_update(acc_stats, scale, lrate)`: updates every
component with its own accumulated-statistics row, replaces the posterior
weights' natural parameters by
`posterior_np + lrate * (prior_np + scale * weights_stats - posterior_np)`
through the setter, and finally calls `_prepare()`. -/
def Mixture.natural_grad_update (oracle : (List ℝ → ℝ) → List ℝ → List ℝ)
    (m : Mixture) (comp_stats : List (List ℝ)) (weights_stats : List ℝ)
    (scale lrate : ℝ) : Mixture :=
  let new_components := List.zipWith
    (fun c s => Component.natural_grad_update oracle c s scale lrate)
    m.components comp_stats
  let natural_grad :=
    vecSub (vecAdd m.prior_weights.natural_params (smulList scale weights_stats))
      m.posterior_weights.natural_params
  let new_post := m.posterior_weights.set_natural_params oracle
    (vecAdd m.posterior_weights.natural_params (smulList lrate natural_grad))
  Mixture.prepare
    { m with components := new_components, posterior_weights := new_post }

/-- `torch.stack([v, v], dim=-1).view(-1)`: duplicates each entry in place,
`[a, b] ↦ [a, a, b, b]`. -/
def dupStack (v : List ℝ) : List ℝ := v.flatMap (fun x => [x, x])

/-- `Mixture.split()`: halves and duplicates the weights' natural parameters,
builds new `DirichletPrior`s from those values plus one, and replaces each
component by its own `split()` (delegated; passed here as `compSplit`),
flattened with `chain.from_iterable`. -/
noncomputable def Mixture.split (oracle : (List ℝ → ℝ) → List ℝ → List ℝ)
    (compSplit : Component → List Component) (m : Mixture) : Mixture :=
  Mixture.init
    (DirichletPrior oracle
      ((smulList 0.5 (dupStack m.prior_weights.natural_params)).map (fun x => x + 1)))
    ((m.components.map compSplit).flatten)
    (DirichletPrior oracle
      ((smulList 0.5 (dupStack m.posterior_weights.natural_params)).map (fun x => x + 1)))

/-! ### Log-sum-exp lemmas -/

/-- The sum of exponentials over a nonempty list is positive. -/
theorem sum_map_exp_pos (xs : List ℝ) (h : xs ≠ []) :
    0 < (xs.map Real.exp).sum := by
  cases xs with
  | nil => exact absurd rfl h
  | cons x t =>
    simp only [List.map_cons, List.sum_cons]
    have ht : 0 ≤ (t.map Real.exp).sum :=
      List.sum_nonneg (by
        intro y hy
        obtain ⟨a, _, rfl⟩ := List.mem_map.1 hy
        exact (Real.exp_pos a).le)
    have := Real.exp_pos x
    linarith

/-- Dividing every entry of a list by a constant divides the sum. -/
theorem sum_map_div (l : List ℝ) (c : ℝ) :
    (l.map (fun x => x / c)).sum = l.sum / c := by
  induction l with
  | nil => simp
  | cons x t ih => simp [ih, add_div]

/-- Shifting inside the exponentials divides the sum of exponentials. -/
theorem sum_map_exp_sub (xs : List ℝ) (c : ℝ) :
    (xs.map (fun x => Real.exp (x - c))).sum = (xs.map Real.exp).sum / Real.exp c := by
  have h1 : xs.map (fun x => Real.exp (x - c))
      = (xs.map Real.exp).map (fun x => x / Real.exp c) := by
    rw [List.map_map]
    exact List.map_congr_left (fun a _ => Real.exp_sub a c)
  rw [h1, sum_map_div]

/-- The exponential of the stable log-sum-exp of a nonempty row is the sum of
the exponentials of the row. -/
theorem exp_logsumexp_row (xs : List ℝ) (h : xs ≠ []) :
    Real.exp (logsumexp_row xs) = (xs.map Real.exp).sum := by
  have hpos : 0 < (xs.map Real.exp).sum := sum_map_exp_pos xs h
  have hS : (xs.map (fun x => Real.exp (x - listMax xs))).sum
      = (xs.map Real.exp).sum / Real.exp (listMax xs) := sum_map_exp_sub xs _
  have hSpos : 0 < (xs.map (fun x => Real.exp (x - listMax xs))).sum := by
    rw [hS]
    exact div_pos hpos (Real.exp_pos _)
  rw [logsumexp_row, Real.exp_add, Real.exp_log hSpos, hS,
    mul_div_cancel₀ _ (ne_of_gt (Real.exp_pos (listMax xs)))]

/-- The stable log-sum-exp (max subtracted before exponentiating) equals the
plain row-wise log-sum-exp on every nonempty row. -/
theorem logsumexp_row_eq_log_sum_exp (xs : List ℝ) (h : xs ≠ []) :
    logsumexp_row xs = Real.log ((xs.map Real.exp).sum) := by
  rw [← exp_logsumexp_row xs h, Real.log_exp]

/-- Every nonempty row of responsibilities `exp (a - logsumexp row)` sums
to 1. -/
theorem resps_row_sum_one (xs : List ℝ) (h : xs ≠ []) :
    (xs.map (fun a => Real.exp (a - logsumexp_row xs))).sum = 1 := by
  rw [sum_map_exp_sub, exp_logsumexp_row xs h,
    div_self (ne_of_gt (sum_map_exp_pos xs h))]

/-- C3: the responsibility matrix is `exp(per_component_expected_llh −
row_logsumexp)`, where the row log-sum-exp is computed stably (the row
maximum is subtracted before exponentiating) and agrees with the plain
log-sum-exp on every nonempty row, and every row of the responsibility
matrix sums to 1. -/
theorem mixture_resps_rows_sum_one (m : Mixture) (X : List (List ℝ))
    (h : m.np_params_matrix ≠ []) :
    (m.resps X = (m.perCompExpLlh X).map
        (fun row => row.map (fun a => Real.exp (a - logsumexp_row row))))
    ∧ (∀ xs : List ℝ, xs ≠ [] →
        logsumexp_row xs = Real.log ((xs.map Real.exp).sum))
    ∧ ∀ row ∈ m.resps X, row.sum = 1 := by
  refine ⟨rfl, logsumexp_row_eq_log_sum_exp, ?_⟩
  intro row hrow
  obtain ⟨p, hp, rfl⟩ := List.mem_map.1 hrow
  obtain ⟨t, _, rfl⟩ := List.mem_map.1 hp
  apply resps_row_sum_one
  simpa [List.map_eq_nil_iff] using h

/-- C10: the per-observation expected log-likelihood returned by
`Mixture.exp_llh` is the row-wise log-sum-exp with the constant log base
measure `.5 * X.size(1) * log(2π)` subtracted from every entry — so it is
not the bare log-sum-exp — while the responsibilities, and hence the
accumulated statistics, are computed from the log-sum-exp before the
subtraction. -/
theorem exp_llh_subtracts_log_base_measure (m : Mixture) (X : List (List ℝ))
    (h1 : m.perCompExpLlh X ≠ []) (h2 : 1 ≤ (X.headD []).length) :
    ((m.exp_llh X).1 = (m.perCompExpLlh X).map
        (fun row => logsumexp_row row
          - 0.5 * ((X.headD []).length : ℝ) * Real.log (2 * Real.pi)))
    ∧ ((m.exp_llh X).2 =
        (matMulT (transposeM (m.resps X))
          (transposeM ((m.sufficient_statistics X).map List.dropLast)),
         colSum (m.resps X)))
    ∧ (m.exp_llh X).1 ≠ (m.perCompExpLlh X).map logsumexp_row := by
  refine ⟨by simp [Mixture.exp_llh, List.map_map, Function.comp], rfl, ?_⟩
  intro heq
  obtain ⟨r, rest, hper⟩ := List.exists_cons_of_ne_nil h1
  have hpi : 0 < Real.log (2 * Real.pi) := by
    apply Real.log_pos
    nlinarith [Real.pi_gt_three]
  have hn : (1 : ℝ) ≤ ((X.headD []).length : ℝ) := by exact_mod_cast h2
  have hhead : logsumexp_row r
      - 0.5 * ((X.headD []).length : ℝ) * Real.log (2 * Real.pi)
      = logsumexp_row r := by
    have := congrArg (fun l => l.headD 0) heq
    simpa [Mixture.exp_llh, hper] using this
  have : 0.5 * ((X.headD []).length : ℝ) * Real.log (2 * Real.pi) = 0 := by
    linarith [sub_eq_self.1 hhead]
  nlinarith

/-- C4: `Mixture.natural_grad_update` replaces the posterior-weights natural
parameters by `posterior_np + lrate * (prior_np + scale * mass -
posterior_np)`, updates each component by the analogous rule applied to its
own accumulated sufficient-statistics row, and then recomputes the cached
natural-parameter matrix so that row i is component i's posterior expected
sufficient statistics with the posterior weights' expected sufficient
statistic i appended. -/
theorem natural_grad_update_formulas
    (oracle : (List ℝ → ℝ) → List ℝ → List ℝ) (m : Mixture)
    (comp_stats : List (List ℝ)) (weights_stats : List ℝ) (scale lrate : ℝ) :
    ((m.natural_grad_update oracle comp_stats weights_stats scale lrate).posterior_weights.natural_params
      = vecAdd m.posterior_weights.natural_params
          (smulList lrate
            (vecSub
              (vecAdd m.prior_weights.natural_params (smulList scale weights_stats))
              m.posterior_weights.natural_params)))
    ∧ ((m.natural_grad_update oracle comp_stats weights_stats scale lrate).components
      = List.zipWith (fun c s => Component.natural_grad_update oracle c s scale lrate)
          m.components comp_stats)
    ∧ (∀ (c : Component) (s : List ℝ),
        (Component.natural_grad_update oracle c s scale lrate).posterior.natural_params
          = vecAdd c.posterior.natural_params
              (smulList lrate
                (vecSub (vecAdd c.prior.natural_params (smulList scale s))
                  c.posterior.natural_params)))
    ∧ ((m.natural_grad_update oracle comp_stats weights_stats scale lrate).np_params_matrix
      = List.zipWith
          (fun c w => c.posterior.expected_sufficient_statistics ++ [w])
          (m.natural_grad_update oracle comp_stats weights_stats scale lrate).components
          (m.natural_grad_update oracle comp_stats weights_stats scale lrate).posterior_weights.expected_sufficient_statistics) :=
  ⟨rfl, rfl, fun c s => rfl, rfl⟩

/-- C5 (amended): with `accumulate=True`, `Mixture.exp_llh` returns the
accumulated statistics `(respsᵗ @ T[:, :-1], resps.sum(dim=0))`: the
responsibility matrix transposed times the sufficient-statistics matrix
with its trailing column of ones dropped, and the column sums of the
responsibility matrix; the sufficient-statistics matrix itself maps each
observation row to the first component's sufficient statistics with a
trailing 1 appended. -/
theorem exp_llh_accumulate_formulas (m : Mixture) (X : List (List ℝ))
    (c : Component) (cs : List Component) (hc : m.components = c :: cs) :
    ((m.exp_llh X).2 =
      (matMulT (transposeM (m.resps X))
        (transposeM ((m.sufficient_statistics X).map List.dropLast)),
       colSum (m.resps X)))
    ∧ m.sufficient_statistics X
      = (c.sufficient_statistics X).map (fun r => r ++ [1]) := by
  refine ⟨rfl, ?_⟩
  simp [Mixture.sufficient_statistics, hc]

/-- A gradient oracle usable at concrete inputs: it returns the zero vector
of the same length as its argument. -/
def oracle0 : (List ℝ → ℝ) → List ℝ → List ℝ := fun _ v => v.map (fun _ => 0)

/-- A concrete exponential-family density (zero log-normalizer, natural
parameters `[0]`). -/
noncomputable def dens0 : ExpFamilyDensity :=
  ExpFamilyDensity.create oracle0 (fun _ => 0) [0]

/-- A concrete component whose sufficient statistics are the observations
themselves. -/
noncomputable def comp0 : Component :=
  { prior := dens0, posterior := dens0, sufficient_statistics := fun X => X }

/-- A concrete one-component mixture. -/
noncomputable def mix0 : Mixture := Mixture.init dens0 [comp0] dens0

/-- A concrete one-observation, one-feature batch. -/
noncomputable def X0 : List (List ℝ) := [[5]]

/-- C5 counterexample: on the concrete mixture `mix0` and batch `X0` the
accumulated component statistics returned by `exp_llh` are NOT
`responsibilitiesᵗ · statistics` for the trailing-1-augmented statistics
matrix: the code drops the trailing column (`T[:, :-1]`), so the returned
matrix has one column where the claimed product has two. -/
theorem exp_llh_accumulate_cex :
    ¬ ((mix0.exp_llh X0).2.1 =
        matMulT (transposeM (mix0.resps X0))
          (transposeM (mix0.sufficient_statistics X0))) := by
  intro h
  have h1 : (((mix0.exp_llh X0).2.1).headD []).length = 1 := rfl
  have h2 : ((matMulT (transposeM (mix0.resps X0))
      (transposeM (mix0.sufficient_statistics X0))).headD []).length = 2 := rfl
  rw [h, h2] at h1
  omega

/-- Adding one and then subtracting one maps a list to itself. -/
theorem map_add_one_sub_one (l : List ℝ) :
    (l.map (fun x => x + 1)).map (fun x => x - 1) = l := by
  rw [List.map_map]
  have : List.map ((fun x => x - 1) ∘ fun x => x + 1) l = List.map id l :=
    List.map_congr_left (fun a _ => by simp [Function.comp])
  simpa using this

/-- A sum of mapped values all equal to 2 is twice the length. -/
theorem sum_map_eq_two_mul_length (l : List Component) (f : Component → ℕ)
    (h : ∀ c ∈ l, f c = 2) : (l.map f).sum = 2 * l.length := by
  induction l with
  | nil => simp
  | cons x t ih =>
    simp only [List.map_cons, List.sum_cons, List.length_cons]
    rw [h x (List.mem_cons_self x t), ih (fun c hc => h c (List.mem_cons_of_mem x hc))]
    ring

/-- The expected weights `exp(ess) / exp(ess).sum()` of a density with a
nonempty expected-sufficient-statistics vector sum to 1. -/
theorem expWeights_sum_one (d : ExpFamilyDensity)
    (h : d.expected_sufficient_statistics ≠ []) : (expWeights d).sum = 1 := by
  rw [expWeights, sum_map_div,
    div_self (ne_of_gt (sum_map_exp_pos _ h))]

/-- C6 (amended): `Mixture.split` on a mixture with K components (each
component splitting into two) returns a mixture with exactly 2K components;
the new prior and posterior Dirichlet densities are built from the counts
`½ · duplicate(old natural params) + 1`, so — the Dirichlet constructor
subtracting one again — their natural parameters are exactly
`½ · duplicate(old natural params)`; and the prior and posterior expected
weights each sum to 1. -/
theorem mixture_split_amended (oracle : (List ℝ → ℝ) → List ℝ → List ℝ)
    (compSplit : Component → List Component) (m : Mixture)
    (h2 : ∀ c ∈ m.components, (compSplit c).length = 2)
    (hp : (m.split oracle compSplit).prior_weights.expected_sufficient_statistics ≠ [])
    (hq : (m.split oracle compSplit).posterior_weights.expected_sufficient_statistics ≠ []) :
    ((m.split oracle compSplit).components.length = 2 * m.components.length)
    ∧ ((m.split oracle compSplit).prior_weights.natural_params
        = smulList 0.5 (dupStack m.prior_weights.natural_params))
    ∧ ((m.split oracle compSplit).posterior_weights.natural_params
        = smulList 0.5 (dupStack m.posterior_weights.natural_params))
    ∧ (expWeights (m.split oracle compSplit).prior_weights).sum = 1
    ∧ (expWeights (m.split oracle compSplit).posterior_weights).sum = 1 := by
  refine ⟨?_, ?_, ?_, expWeights_sum_one _ hp, expWeights_sum_one _ hq⟩
  · show ((m.components.map compSplit).flatten).length = 2 * m.components.length
    rw [List.length_flatten, List.map_map]
    exact sum_map_eq_two_mul_length m.components _ h2
  · exact map_add_one_sub_one _
  · exact map_add_one_sub_one _

/-- A concrete mixture whose weight densities are Dirichlet priors with
counts `[1]` (natural parameters `[0]`). -/
noncomputable def mix6 : Mixture :=
  Mixture.init (DirichletPrior oracle0 [1]) [comp0] (DirichletPrior oracle0 [1])

/-- A concrete component-split function returning two copies. -/
noncomputable def compSplit0 : Component → List Component := fun c => [c, c]

/-- C6 counterexample: on the concrete mixture `mix6` (prior counts `[1]`,
old natural parameters `[0]`), the split mixture's prior-weight natural
parameters are NOT `½ · duplicate(old) + 1 = [1, 1]`: the `DirichletPrior`
constructor subtracts 1 from its counts argument again, so they are
`½ · duplicate(old) = [0, 0]`. -/
theorem mixture_split_cex :
    ¬ ((mix6.split oracle0 compSplit0).prior_weights.natural_params
        = (smulList 0.5 (dupStack mix6.prior_weights.natural_params)).map
            (fun x => x + 1)) := by
  have hL : (mix6.split oracle0 compSplit0).prior_weights.natural_params
      = [0.5 * ((1 : ℝ) - 1) + 1 - 1, 0.5 * ((1 : ℝ) - 1) + 1 - 1] := rfl
  have hR : (smulList 0.5 (dupStack mix6.prior_weights.natural_params)).map
        (fun x => x + 1)
      = [0.5 * ((1 : ℝ) - 1) + 1, 0.5 * ((1 : ℝ) - 1) + 1] := rfl
  intro h
  rw [hL, hR] at h
  norm_num at h

/-- C9 (failing input): `normalwishart` with the 2-dimensional mean `[0, 0]`
and the NON-SQUARE 1×2 precision matrix `[[1, 2]]` succeeds and produces a
density: the code only rejects precision arguments that are not 2-D
tensors, and the later elementwise addition accepts the 1×2 shape by
broadcasting, so no shape error is raised although the hyperparameter
dimensions are inconsistent. -/
theorem normalwishart_accepts_nonsquare_precision :
    (normalwishart oracle0 [0, 0] (Tensor.t2 [[1, 2]]) 1).isOk = true := rfl

/-! ### C7: the Normal-Wishart log-normalizer formula -/

/-- The Normal-Wishart log-normalizer exactly as the specification states it,
for `np1` a D×D matrix (given by its entry function), `np2` a D-vector,
`np3`, `np4` scalars:
`½[(np4+D)D·log2 − D·log(np3)] − ½(np4+D)·logdet(np1 − np2⊗np2/np3)
 + Σ_{i=1..D} logΓ(½(np4+D+1−i))`. -/
noncomputable def nwLogNormSpec (D : ℕ) (np1 : ℕ → ℕ → ℝ) (np2 : ℕ → ℝ)
    (np3 np4 : ℝ) : ℝ :=
  0.5 * ((np4 + (D : ℝ)) * (D : ℝ) * Real.log 2 - (D : ℝ) * Real.log np3)
  - 0.5 * (np4 + (D : ℝ))
      * Real.log (detN D (fun i j => np1 i j - np2 i * np2 j / np3))
  + ∑ i in Finset.Icc 1 D, lgamma (0.5 * (np4 + (D : ℝ) + 1 - (i : ℝ)))

/-- Row-major flattening of a D×D matrix (`tensor.view(-1)` of a D×D
tensor): entry `i*D+j` of the list is entry `(i, j)` of the matrix. -/
def flattenM (D : ℕ) (f : ℕ → ℕ → ℝ) : List ℝ :=
  (List.range (D * D)).map (fun k => f (k / D) (k % D))

/-- Reading a mapped range list at an in-range position gives the function
value. -/
theorem getD_range_map (f : ℕ → ℝ) (n k : ℕ) (h : k < n) :
    ((List.range n).map f).getD k 0 = f k := by
  rw [List.getD_eq_getElem _ _ (by simpa using h)]
  simp

/-- Sum over `Icc 1 D` re-indexed as a sum over `range D`. -/
theorem sum_Icc_one_eq_sum_range (f : ℕ → ℝ) (D : ℕ) :
    ∑ i in Finset.Icc 1 D, f i = ∑ i in Finset.range D, f (i + 1) := by
  induction D with
  | zero => simp
  | succ n ih =>
    rw [Finset.sum_Icc_succ_top (by omega), ih, Finset.sum_range_succ]

/-- C7: on a Normal-Wishart natural-parameter vector assembled from a D×D
matrix block `np1` (row-major), a D-vector block `np2` and two trailing
scalars `np3, np4` — so that the dimension recovered from the total length
by solving `D² + D − len = 0` is exactly `D` — the source log-normalizer
returns exactly the specified value
`½[(np4+D)D·log2 − D·log(np3)] − ½(np4+D)·logdet(np1 − np2⊗np2/np3)
 + Σ_{i=1..D} logΓ(½(np4+D+1−i))`. -/
theorem normalwishart_log_norm_matches_spec (D : ℕ) (g : ℕ → ℕ → ℝ)
    (μ : ℕ → ℝ) (a b : ℝ) :
    normalwishart_log_norm (flattenM D g ++ ((List.range D).map μ ++ [a, b]))
      = nwLogNormSpec D g μ a b := by
  set v := flattenM D g ++ ((List.range D).map μ ++ [a, b]) with hv
  have hL1 : (flattenM D g).length = D * D := by simp [flattenM]
  have hL2 : ((List.range D).map μ).length = D := by simp
  have hlen : v.length = D * D + (D + 2) := by
    simp [hv, flattenM]
  have hlen2 : v.length - 2 = D * D + D := by omega
  have hD : nwD v = D := by
    rw [nwD, hlen2]
    have h4 : 1 + 4 * (D * D + D) = (2 * D + 1) * (2 * D + 1) := by ring
    rw [h4, Nat.sqrt_eq]
    omega
  have ha : v.getD (v.length - 2) 0 = a := by
    rw [hlen2, hv, List.getD_append_right _ _ _ _ (by rw [hL1]; omega), hL1]
    have h1 : D * D + D - D * D = D := by omega
    rw [h1, List.getD_append_right _ _ _ _ (le_of_eq hL2), hL2]
    simp
  have hb : v.getD (v.length - 1) 0 = b := by
    have h0 : v.length - 1 = D * D + (D + 1) := by omega
    rw [h0, hv, List.getD_append_right _ _ _ _ (by rw [hL1]; omega), hL1]
    have h1 : D * D + (D + 1) - D * D = D + 1 := by omega
    rw [h1, List.getD_append_right _ _ _ _ (by rw [hL2]; omega), hL2]
    have h2 : D + 1 - D = 1 := by omega
    rw [h2]
    simp
  have hnp2 : nwNp2 v = (List.range D).map μ := by
    rw [nwNp2, hD, hlen2, hv]
    have h1 : (flattenM D g ++ ((List.range D).map μ ++ [a, b])).take (D * D + D)
        = flattenM D g ++ (List.range D).map μ := by
      conv_lhs => rw [← hL1]
      rw [List.take_append, List.take_left' hL2]
    rw [h1, List.drop_left' hL1]
  have hg : ∀ i j : ℕ, i < D → j < D → v.getD (i * D + j) 0 = g i j := by
    intro i j hi hj
    have hD0 : 0 < D := by omega
    have hlt : i * D + j < D * D := by
      calc i * D + j < i * D + D := by omega
        _ = (i + 1) * D := by ring
        _ ≤ D * D := Nat.mul_le_mul_right D (by omega)
    rw [hv, List.getD_append _ _ _ _ (by rw [hL1]; exact hlt), flattenM,
      getD_range_map _ _ _ hlt]
    congr 1
    · rw [show i * D + j = j + D * i by ring, Nat.add_mul_div_left _ _ hD0,
        Nat.div_eq_of_lt hj]
      omega
    · rw [show i * D + j = j + D * i by ring, Nat.add_mul_mod_self_left,
        Nat.mod_eq_of_lt hj]
  have hdet : detN D (fun i j =>
        v.getD (i * D + j) 0
          - ((List.range D).map μ).getD i 0 * ((List.range D).map μ).getD j 0 / a)
      = detN D (fun i j => g i j - μ i * μ j / a) := by
    unfold detN
    congr 1
    ext i j
    simp only [Matrix.of_apply]
    rw [hg i.1 j.1 i.2 j.2, getD_range_map _ _ _ i.2, getD_range_map _ _ _ j.2]
  have hsum : ∑ i in Finset.range D,
        lgamma (0.5 * (b + (D : ℝ) + 1 - ((i : ℝ) + 1)))
      = ∑ i in Finset.Icc 1 D, lgamma (0.5 * (b + (D : ℝ) + 1 - (i : ℝ))) := by
    rw [sum_Icc_one_eq_sum_range]
    apply Finset.sum_congr rfl
    intro i _
    congr 1
    push_cast
    ring
  simp only [normalwishart_log_norm, nwLogNormSpec, hD, hnp2, ha, hb]
  rw [hdet, hsum]

/-! ### Witnesses -/

/-- Witness for C3 at the concrete mixture `mix0` and batch `X0`. -/
theorem mixture_resps_rows_sum_one_witness :
    mix0.np_params_matrix ≠ []
    ∧ logsumexp_row [(5 : ℝ)] = Real.log ((([(5 : ℝ)]).map Real.exp).sum)
    ∧ ∀ row ∈ mix0.resps X0, row.sum = 1 :=
  ⟨List.cons_ne_nil _ _,
   (mixture_resps_rows_sum_one mix0 X0 (List.cons_ne_nil _ _)).2.1
     [(5 : ℝ)] (List.cons_ne_nil _ _),
   (mixture_resps_rows_sum_one mix0 X0 (List.cons_ne_nil _ _)).2.2⟩

/-- Witness for C10 at the concrete mixture `mix0` and batch `X0`. -/
theorem exp_llh_subtracts_log_base_measure_witness :
    (mix0.perCompExpLlh X0 ≠ [] ∧ 1 ≤ (X0.headD []).length)
    ∧ (mix0.exp_llh X0).1 ≠ (mix0.perCompExpLlh X0).map logsumexp_row :=
  ⟨⟨List.cons_ne_nil _ _, Nat.le_refl 1⟩,
   (exp_llh_subtracts_log_base_measure mix0 X0 (List.cons_ne_nil _ _)
     (Nat.le_refl 1)).2.2⟩

/-- Witness for C5 (amended) at the concrete mixture `mix0` and batch `X0`. -/
theorem exp_llh_accumulate_formulas_witness :
    mix0.components = comp0 :: []
    ∧ mix0.sufficient_statistics X0
      = (comp0.sufficient_statistics X0).map (fun r => r ++ [1]) :=
  ⟨rfl, (exp_llh_accumulate_formulas mix0 X0 comp0 [] rfl).2⟩

/-- Witness for C6 (amended) at the concrete mixture `mix6`. -/
theorem mixture_split_amended_witness :
    (∀ c ∈ mix6.components, (compSplit0 c).length = 2)
    ∧ (mix6.split oracle0 compSplit0).components.length
        = 2 * mix6.components.length
    ∧ (expWeights (mix6.split oracle0 compSplit0).prior_weights).sum = 1
    ∧ (expWeights (mix6.split oracle0 compSplit0).posterior_weights).sum = 1 :=
  ⟨fun c _ => rfl,
   (mixture_split_amended oracle0 compSplit0 mix6 (fun c _ => rfl)
     (List.cons_ne_nil _ _) (List.cons_ne_nil _ _)).1,
   (mixture_split_amended oracle0 compSplit0 mix6 (fun c _ => rfl)
     (List.cons_ne_nil _ _) (List.cons_ne_nil _ _)).2.2.2.1,
   (mixture_split_amended oracle0 compSplit0 mix6 (fun c _ => rfl)
     (List.cons_ne_nil _ _) (List.cons_ne_nil _ _)).2.2.2.2⟩

end Beer
